import Mathlib

/-!
Verification development for the `math-parser` repository (a small
interpreter: lexer, recursive-descent parser, tree-walking evaluator).

Shallow embedding notes:
* Rust `i64` is modelled as `Int`; the wrapping arithmetic of release
  builds is made explicit with `wrap64`, and the two division panics of
  Rust (`b = 0`, and the overflow pair `(i64::MIN, -1)`) are modelled by
  `Option.none`.
* Rust `f64` is modelled by `MFloat`: an exact rational together with the
  IEEE special values (signed infinity and NaN).  Finite arithmetic is
  exact (no rounding), which is faithful for every property studied here
  (totality, the division-by-zero specials, the epsilon comparison of
  `eval_equality`).
* Rust panics (`unwrap` on a missing variable, integer division by zero
  or overflow) are modelled by `Option.none`; evaluation that returns
  normally is `Option.some`.
* `&str` is modelled as `List Char`; the byte offsets recorded by the
  lexer are computed with `utf8Length` (the sum of the UTF-8 sizes of the
  characters), matching Rust's byte-based `str::len`.
* The environment `HashMap<String, Value>` is modelled as an association
  list whose `lookup` takes the most recent binding; `envInsert` prepends,
  which is observationally the overwriting insert of `HashMap`.
-/

/-- Model of Rust `f64`: exact rationals plus the IEEE special values.
`num q` is a finite value (negative zero is identified with zero),
`inf true` is `+inf`, `inf false` is `-inf`, `nan` is NaN. -/
inductive MFloat
  | num (q : ℚ)
  | inf (pos : Bool)
  | nan
deriving DecidableEq

namespace MFloat

/-- IEEE negation. -/
def neg : MFloat → MFloat
  | num q => num (-q)
  | inf p => inf (!p)
  | nan => nan

/-- IEEE addition (exact on finite values). -/
def add : MFloat → MFloat → MFloat
  | num a, num b => num (a + b)
  | num _, inf p => inf p
  | inf p, num _ => inf p
  | inf p, inf q => if p = q then inf p else nan
  | _, _ => nan

/-- IEEE subtraction (exact on finite values). -/
def sub : MFloat → MFloat → MFloat
  | num a, num b => num (a - b)
  | num _, inf p => inf (!p)
  | inf p, num _ => inf p
  | inf p, inf q => if p = q then nan else inf p
  | _, _ => nan

/-- IEEE multiplication (exact on finite values). -/
def mul : MFloat → MFloat → MFloat
  | num a, num b => num (a * b)
  | num a, inf p => if a = 0 then nan else if 0 < a then inf p else inf (!p)
  | inf p, num b => if b = 0 then nan else if 0 < b then inf p else inf (!p)
  | inf p, inf q => if p = q then inf true else inf false
  | _, _ => nan

/-- IEEE division (exact on finite values).  Division of a non-zero
finite value by zero gives a signed infinity, `0/0` gives NaN: it never
fails. -/
def div : MFloat → MFloat → MFloat
  | num a, num b =>
      if b = 0 then (if a = 0 then nan else if 0 < a then inf true else inf false)
      else num (a / b)
  | num _, inf _ => num 0
  | inf p, num b => if 0 ≤ b then inf p else inf (!p)
  | inf _, inf _ => nan
  | _, _ => nan

/-- IEEE absolute value. -/
def abs : MFloat → MFloat
  | num q => num |q|
  | inf _ => inf true
  | nan => nan

/-- IEEE strict less-than: any comparison with NaN is false. -/
def lt : MFloat → MFloat → Bool
  | num a, num b => decide (a < b)
  | num _, inf p => p
  | inf p, num _ => !p
  | inf p, inf q => !p && q
  | _, _ => false

end MFloat

/-- Source: `expr.rs`, `enum Value`.  `Int` carries a mathematical
integer standing for the Rust `i64` (in-range by construction in the
interpreter), `Float` carries the `f64` model. -/
inductive Value
  | Int (n : ℤ)
  | Float (f : MFloat)
  | Bool (b : Bool)
deriving DecidableEq

/-- Source: `expr.rs`, `Value::f64` — coercion of any value to `f64`:
a float is itself, an int is numerically cast, `true` is `1.0` and
`false` is `0.0`. -/
def Value.f64 : Value → MFloat
  | Value.Float f => f
  | Value.Int n => MFloat.num (n : ℚ)
  | Value.Bool b => if b then MFloat.num 1 else MFloat.num 0

/-- Source: `expr.rs`, `struct Env { vars: HashMap<String, Value> }`,
modelled as an association list: `List.lookup` returns the most recent
binding for a key. -/
abbrev Env := List (String × Value)

/-- Source: `expr.rs`, `Env::new` — the empty environment. -/
def Env.new : Env := []

/-- Model of `HashMap::insert`: prepending a binding; under first-match
lookup this overwrites any earlier binding of the same name. -/
def envInsert (name : String) (v : Value) (env : Env) : Env :=
  (name, v) :: env

/-- Model of `HashMap::get`. -/
def envGet (name : String) (env : Env) : Option Value :=
  List.lookup name env

/-- Source: `expr.rs`, `enum Expr`. -/
inductive Expr
  | Literal (val : Value)
  | VarDeclaration (name : String) (expr : Expr)
  | Var (name : String)
  | Print (expr : Expr)
  | Multiplication (left right : Expr)
  | Division (left right : Expr)
  | Addition (left right : Expr)
  | Subtraction (left right : Expr)
  | Negative (val : Expr)
  | Equality (left right : Expr)
  | Conditional (cond val_if_true val_if_false : Expr)
deriving DecidableEq

/-- Wrap a mathematical integer to the two's-complement `i64` range, the
semantics of Rust release-build `+`, `-`, `*` and unary `-` on `i64`. -/
def wrap64 (n : ℤ) : ℤ :=
  (n + 2 ^ 63) % 2 ^ 64 - 2 ^ 63

/-- The smallest `i64`. -/
def i64Min : ℤ := -(2 ^ 63)

/-- The epsilon `0.000_001` used by `eval_equality` in `expr.rs`. -/
def eps1e6 : MFloat := MFloat.num (1 / 1000000)

/-- Source: `expr.rs`, `Expr::eval` together with the helper functions
`eval_multiplication`, `eval_division`, `eval_addition`,
`eval_subtraction`, `eval_negative`, `eval_var_declaration`, `eval_var`,
`eval_print`, `eval_equality` and `eval_conditional`, inlined into one
structural recursion (each arm transcribes the named helper).  The
result is `none` exactly when the Rust code panics; otherwise it is the
produced value together with the updated environment (Rust mutates `env`
through `&mut`).  The `println!` of `eval_print` writes to stdout, which
no property here observes, so it is not modelled. -/
def Expr.eval : Expr → Env → Option (Value × Env)
  | Expr.Literal val, env => some (val, env)
  -- eval_var_declaration
  | Expr.VarDeclaration name expr, env => do
      let (val, env) ← expr.eval env
      some (val, envInsert name val env)
  -- eval_var: `env.vars.get(name).unwrap()` panics when unbound
  | Expr.Var name, env => do
      let val ← envGet name env
      some (val, env)
  -- eval_print: evaluates, prints, returns the value unchanged
  | Expr.Print expr, env => expr.eval env
  -- eval_multiplication
  | Expr.Multiplication left right, env => do
      let (l, env) ← left.eval env
      let (r, env) ← right.eval env
      match l, r with
      | Value.Int a, Value.Int b => some (Value.Int (wrap64 (a * b)), env)
      | a, b => some (Value.Float (MFloat.mul a.f64 b.f64), env)
  -- eval_division: Rust `i64` division panics on a zero divisor and on
  -- the overflowing pair (i64::MIN, -1); otherwise it truncates toward 0
  | Expr.Division left right, env => do
      let (l, env) ← left.eval env
      let (r, env) ← right.eval env
      match l, r with
      | Value.Int a, Value.Int b =>
          if b = 0 ∨ (a = i64Min ∧ b = -1) then none
          else some (Value.Int (Int.tdiv a b), env)
      | a, b => some (Value.Float (MFloat.div a.f64 b.f64), env)
  -- eval_addition
  | Expr.Addition left right, env => do
      let (l, env) ← left.eval env
      let (r, env) ← right.eval env
      match l, r with
      | Value.Int a, Value.Int b => some (Value.Int (wrap64 (a + b)), env)
      | a, b => some (Value.Float (MFloat.add a.f64 b.f64), env)
  -- eval_subtraction
  | Expr.Subtraction left right, env => do
      let (l, env) ← left.eval env
      let (r, env) ← right.eval env
      match l, r with
      | Value.Int a, Value.Int b => some (Value.Int (wrap64 (a - b)), env)
      | a, b => some (Value.Float (MFloat.sub a.f64 b.f64), env)
  -- eval_negative
  | Expr.Negative val, env => do
      let (v, env) ← val.eval env
      match v with
      | Value.Int n => some (Value.Int (wrap64 (-n)), env)
      | Value.Float f => some (Value.Float (MFloat.neg f), env)
      | Value.Bool b => some (Value.Bool (!b), env)
  -- eval_equality: left operand is evaluated first, then the right
  | Expr.Equality left right, env => do
      let (l, env) ← left.eval env
      let (r, env) ← right.eval env
      some (Value.Bool (MFloat.lt (MFloat.abs (MFloat.sub l.f64 r.f64)) eps1e6), env)
  -- eval_conditional
  | Expr.Conditional cond val_if_true val_if_false, env => do
      let (c, env) ← cond.eval env
      match c with
      | Value.Bool true => val_if_true.eval env
      | _ => val_if_false.eval env

/-- Source: `lexer.rs`, `enum Token`, as the parser requires it.  The
`Token` enum written in `lexer.rs` stops at `EOF`; `parser.rs` however
pattern-matches the further variants `DoubleEquals`, `True`, `False`,
`If`, `Then` and `Else`, so the type needed by the crate is this union.
The lexer functions below, transcribed from `lexer.rs`, never produce
the extra variants. -/
inductive Token
  | Int (n : ℤ)
  | Float (f : MFloat)
  | Name (s : String)
  | LetKeyword
  | PrintKeyword
  | Plus
  | Minus
  | Star
  | Slash
  | LeftParen
  | RightParen
  | Equals
  | EOF
  | DoubleEquals
  | True
  | False
  | If
  | Then
  | Else
deriving DecidableEq

/-- Rust `char::is_ascii_whitespace`: space, horizontal tab, line feed,
form feed, carriage return (not vertical tab). -/
def isAsciiWhitespace (c : Char) : Bool :=
  c = ' ' || c = '\t' || c = '\n' || c.toNat = 0xC || c = '\r'

/-- Rust `char::is_ascii_digit`. -/
def isAsciiDigit (c : Char) : Bool :=
  '0' ≤ c && c ≤ '9'

/-- Rust `char::is_ascii_alphabetic`. -/
def isAsciiAlphabetic (c : Char) : Bool :=
  ('a' ≤ c && c ≤ 'z') || ('A' ≤ c && c ≤ 'Z')

/-- Rust `char::is_whitespace`: the Unicode `White_Space` property, used
by `str::trim_end`. -/
def isRustWhitespace (c : Char) : Bool :=
  (0x9 ≤ c.toNat && c.toNat ≤ 0xD) || c.toNat = 0x20 || c.toNat = 0x85 ||
  c.toNat = 0xA0 || c.toNat = 0x1680 ||
  (0x2000 ≤ c.toNat && c.toNat ≤ 0x200A) ||
  c.toNat = 0x2028 || c.toNat = 0x2029 || c.toNat = 0x202F ||
  c.toNat = 0x205F || c.toNat = 0x3000

/-- Number of bytes of the UTF-8 encoding of a character. -/
def charUtf8Size (c : Char) : Nat :=
  if c.toNat < 0x80 then 1
  else if c.toNat < 0x800 then 2
  else if c.toNat < 0x10000 then 3
  else 4

/-- Rust `str::len`: the byte length of the UTF-8 encoding. -/
def utf8Length (input : List Char) : Nat :=
  (input.map charUtf8Size).sum

/-- Rust `str::trim_end`: drop trailing Unicode whitespace. -/
def trimEnd (input : List Char) : List Char :=
  (input.reverse.dropWhile isRustWhitespace).reverse

/-- Source: `lexer.rs`, the `Err` values (`unexpected_char`,
`failed_to_parse_number`, carrying the length of the remaining input)
and the empty-input error of `tokenize`.  The Rust driver renders these
to strings, which no property here observes.  `fuel` is an artifact of
the embedding's fuelled recursion and is proved unreachable below. -/
inductive LexErr
  | unexpectedChar (restLen : Nat)
  | failedToParseNumber (restLen : Nat)
  | emptyInput
  | fuel
deriving DecidableEq

instance {ε α : Type} [DecidableEq ε] [DecidableEq α] : DecidableEq (Except ε α) := fun
  | Except.error a, Except.error b =>
      match decEq a b with
      | isTrue h => isTrue (h ▸ rfl)
      | isFalse h => isFalse fun hh => h (Except.error.inj hh)
  | Except.error _, Except.ok _ => isFalse fun hh => Except.noConfusion hh
  | Except.ok _, Except.error _ => isFalse fun hh => Except.noConfusion hh
  | Except.ok a, Except.ok b =>
      match decEq a b with
      | isTrue h => isTrue (h ▸ rfl)
      | isFalse h => isFalse fun hh => h (Except.ok.inj hh)

/-- Source: `lexer.rs`, `skip_whitespace` (via `eat_while`). -/
def skip_whitespace (input : List Char) : List Char :=
  input.dropWhile isAsciiWhitespace

/-- Numeric value of a run of ASCII digits, as `str::parse` computes it. -/
def natOfDigits (digits : List Char) : Nat :=
  digits.foldl (fun acc c => 10 * acc + (c.toNat - 48)) 0

/-- The largest `i64`. -/
def i64MaxNat : Nat := 2 ^ 63 - 1

/-- Source: `lexer.rs`, `eat_number` (using `eat_digits`, i.e.
`eat_while is_ascii_digit`): a digit run, then optionally a dot and a
second digit run.  `parse::<i64>` fails on an empty digit run or a value
beyond `i64::MAX` (the digit run carries no sign, so only the upper
bound can fail); the captured float slice `digits "." digits` always
parses, here to its exact rational value. -/
def eat_number (input : List Char) : Except LexErr (List Char × Token) :=
  let digits := input.takeWhile isAsciiDigit
  let rest := input.dropWhile isAsciiDigit
  let intResult : Except LexErr (List Char × Token) :=
    if digits.isEmpty ∨ i64MaxNat < natOfDigits digits then
      Except.error (LexErr.failedToParseNumber (utf8Length input))
    else Except.ok (rest, Token.Int (natOfDigits digits))
  match rest with
  | [] => intResult
  | c :: rest2 =>
      if c = '.' then
        let frac := rest2.takeWhile isAsciiDigit
        let rest3 := rest2.dropWhile isAsciiDigit
        Except.ok (rest3, Token.Float (MFloat.num
          ((natOfDigits digits : ℚ) + (natOfDigits frac : ℚ) / 10 ^ frac.length)))
      else intResult

/-- Source: `lexer.rs`, `eat_word`: a greedy run of ASCII alphabetic
characters; only `"let"` and `"print"` are classified as keywords, any
other word (including `"true"`, `"false"`, `"if"`, `"then"`, `"else"`)
becomes a `Name` token holding the raw slice. -/
def eat_word (input : List Char) : Except LexErr (List Char × Token) :=
  let word := input.takeWhile isAsciiAlphabetic
  let rest := input.dropWhile isAsciiAlphabetic
  let token :=
    if String.mk word = "let" then Token.LetKeyword
    else if String.mk word = "print" then Token.PrintKeyword
    else Token.Name (String.mk word)
  Except.ok (rest, token)

/-- Source: `lexer.rs`, `eat_token`: dispatch on the first character.  A
`'='` always becomes `Equals`; there is no lookahead for `"=="`.  The
`[]` case is unreachable from `tokenize` (in Rust `first` would panic on
an empty slice). -/
def eat_token (input : List Char) : Except LexErr (List Char × Token) :=
  match input with
  | [] => Except.error (LexErr.unexpectedChar 0)
  | c :: rest =>
      if c = '+' then Except.ok (rest, Token.Plus)
      else if c = '-' then Except.ok (rest, Token.Minus)
      else if c = '*' then Except.ok (rest, Token.Star)
      else if c = '/' then Except.ok (rest, Token.Slash)
      else if c = '(' then Except.ok (rest, Token.LeftParen)
      else if c = ')' then Except.ok (rest, Token.RightParen)
      else if c = '=' then Except.ok (rest, Token.Equals)
      else if isAsciiAlphabetic c then eat_word input
      else if isAsciiDigit c then eat_number input
      else Except.error (LexErr.unexpectedChar (utf8Length input))

/-- Source: `lexer.rs`, the `while !unprocessed.is_empty()` loop of
`tokenize`, as a fuelled recursion (the fuel bound is proved sufficient
in `tokenizeLoop_no_fuel_error`).  Each token is recorded with the byte
offset `input.len() - unprocessed.len()`. -/
def tokenizeLoop : Nat → List Char → List Char → Except LexErr (List (Token × Nat))
  | 0, _, _ => Except.error LexErr.fuel
  | fuel + 1, orig, unprocessed =>
      if unprocessed.isEmpty then Except.ok []
      else
        match eat_token unprocessed with
        | Except.error e => Except.error e
        | Except.ok (rest, token) =>
            match tokenizeLoop fuel orig (skip_whitespace rest) with
            | Except.error e => Except.error e
            | Except.ok ts =>
                Except.ok ((token, utf8Length orig - utf8Length unprocessed) :: ts)

/-- Source: `lexer.rs`, `tokenize`: skip leading whitespace, fail on
empty input, run the token loop, then append exactly one `EOF` token at
offset `input.trim_end().len()`. -/
def tokenize (input : List Char) : Except LexErr (List (Token × Nat)) :=
  let unprocessed := skip_whitespace input
  if unprocessed.isEmpty then Except.error LexErr.emptyInput
  else
    match tokenizeLoop (unprocessed.length + 1) input unprocessed with
    | Except.error e => Except.error e
    | Except.ok ts => Except.ok (ts ++ [(Token.EOF, utf8Length (trimEnd input))])

example : tokenize "1+2".data
    = Except.ok [(Token.Int 1, 0), (Token.Plus, 1), (Token.Int 2, 2), (Token.EOF, 3)] := by decide
example : tokenize "  let xy = 5  ".data
    = Except.ok [(Token.LetKeyword, 2), (Token.Name "xy", 6), (Token.Equals, 9),
        (Token.Int 5, 11), (Token.EOF, 12)] := by decide
example : tokenize "==".data
    = Except.ok [(Token.Equals, 0), (Token.Equals, 1), (Token.EOF, 2)] := by decide
example : tokenize "true".data
    = Except.ok [(Token.Name "true", 0), (Token.EOF, 4)] := by decide
example : tokenize "1.5".data
    = Except.ok [(Token.Float (MFloat.num ((1 : ℚ) + (5 : ℚ) / 10 ^ (1 : ℕ))), 0),
        (Token.EOF, 3)] := rfl

/-- Source: `parser.rs`, `type WrappedToken<'a> = (Token<'a>, usize)`. -/
abbrev WrappedToken := Token × Nat

/-- Source: `parser.rs`, `type ParseResult` — the remaining tokens and
the parsed expression, or the failing token with a message. -/
abbrev ParseResult := Except (WrappedToken × String) (List WrappedToken × Expr)

/-- Error used only when the embedding's fuel runs out; proved
unreachable for the concrete inputs used below (Rust's loops need no
fuel). -/
def fuelMsg : String := "embedding fuel exhausted"

/-- Source: `parser.rs`, `first` (`tokens[0]`).  The `[]` case is
unreachable: the token list of a `tokenize` result always ends with
`EOF` and the parser never consumes past it (in Rust, indexing an empty
slice would panic). -/
def firstTok (tokens : List WrappedToken) : WrappedToken :=
  match tokens with
  | [] => (Token.EOF, 0)
  | t :: _ => t

/-- Source: `parser.rs`, `eat_one`. -/
def eatOne (tokens : List WrappedToken) : List WrappedToken × WrappedToken :=
  (tokens.tail, firstTok tokens)

/-- Source: `parser.rs`, `skip_one`. -/
def skipOne (tokens : List WrappedToken) : List WrappedToken :=
  tokens.tail

mutual

/-- Source: `parser.rs`, `parse_conditional`: an additive expression,
then the `==` folding loop. -/
def parse_conditional : Nat → List WrappedToken → ParseResult
  | 0, _ => Except.error ((Token.EOF, 0), fuelMsg)
  | fuel + 1, tokens =>
      match parse_additive fuel tokens with
      | Except.error e => Except.error e
      | Except.ok (tokens, expr) => parse_conditional_loop fuel tokens expr

/-- Source: `parser.rs`, the `loop` in `parse_conditional`: while the
next token is `DoubleEquals`, eat it, parse an additive expression and
fold left-associatively into an `Equality` node. -/
def parse_conditional_loop : Nat → List WrappedToken → Expr → ParseResult
  | 0, _, _ => Except.error ((Token.EOF, 0), fuelMsg)
  | fuel + 1, tokens, expr =>
      match firstTok tokens with
      | (Token.DoubleEquals, _) =>
          match parse_additive fuel (eatOne tokens).1 with
          | Except.error e => Except.error e
          | Except.ok (rest, other) =>
              parse_conditional_loop fuel rest (Expr.Equality expr other)
      | _ => Except.ok (tokens, expr)

/-- Source: `parser.rs`, `parse_additive`: a multiplicative expression,
then the `+`/`-` folding loop. -/
def parse_additive : Nat → List WrappedToken → ParseResult
  | 0, _ => Except.error ((Token.EOF, 0), fuelMsg)
  | fuel + 1, tokens =>
      match parse_multiplicative fuel tokens with
      | Except.error e => Except.error e
      | Except.ok (tokens, expr) => parse_additive_loop fuel tokens expr

/-- Source: `parser.rs`, the `loop` in `parse_additive`: while the next
token is `Plus` or `Minus`, eat it, parse a multiplicative expression
and fold left-associatively into an `Addition`/`Subtraction` node. -/
def parse_additive_loop : Nat → List WrappedToken → Expr → ParseResult
  | 0, _, _ => Except.error ((Token.EOF, 0), fuelMsg)
  | fuel + 1, tokens, expr =>
      match firstTok tokens with
      | (Token.Plus, _) =>
          match parse_multiplicative fuel (eatOne tokens).1 with
          | Except.error e => Except.error e
          | Except.ok (rest, other) =>
              parse_additive_loop fuel rest (Expr.Addition expr other)
      | (Token.Minus, _) =>
          match parse_multiplicative fuel (eatOne tokens).1 with
          | Except.error e => Except.error e
          | Except.ok (rest, other) =>
              parse_additive_loop fuel rest (Expr.Subtraction expr other)
      | _ => Except.ok (tokens, expr)

/-- Source: `parser.rs`, `parse_multiplicative`: a primary expression,
then the `*`/`/` folding loop. -/
def parse_multiplicative : Nat → List WrappedToken → ParseResult
  | 0, _ => Except.error ((Token.EOF, 0), fuelMsg)
  | fuel + 1, tokens =>
      match parse_primary fuel tokens with
      | Except.error e => Except.error e
      | Except.ok (tokens, expr) => parse_multiplicative_loop fuel tokens expr

/-- Source: `parser.rs`, the `loop` in `parse_multiplicative`: while the
next token is `Star` or `Slash`, eat it, parse a primary expression and
fold left-associatively into a `Multiplication`/`Division` node. -/
def parse_multiplicative_loop : Nat → List WrappedToken → Expr → ParseResult
  | 0, _, _ => Except.error ((Token.EOF, 0), fuelMsg)
  | fuel + 1, tokens, expr =>
      match firstTok tokens with
      | (Token.Star, _) =>
          match parse_primary fuel (eatOne tokens).1 with
          | Except.error e => Except.error e
          | Except.ok (rest, other) =>
              parse_multiplicative_loop fuel rest (Expr.Multiplication expr other)
      | (Token.Slash, _) =>
          match parse_primary fuel (eatOne tokens).1 with
          | Except.error e => Except.error e
          | Except.ok (rest, other) =>
              parse_multiplicative_loop fuel rest (Expr.Division expr other)
      | _ => Except.ok (tokens, expr)

/-- Source: `parser.rs`, `parse_primary`: dispatch on the first token
(parenthesized expression, literals, unary minus, `let`, `print`, name,
`true`/`false`, `if`/`then`/`else`, and the error cases). -/
def parse_primary : Nat → List WrappedToken → ParseResult
  | 0, _ => Except.error ((Token.EOF, 0), fuelMsg)
  | fuel + 1, tokens =>
      match eatOne tokens with
      | (tokens, (Token.LeftParen, _)) =>
          match parse_conditional fuel tokens with
          | Except.error e => Except.error e
          | Except.ok (tokens, expr) =>
              if (firstTok tokens).1 = Token.RightParen then
                Except.ok (skipOne tokens, expr)
              else Except.error (firstTok tokens, "Hey, I expected a closing parenthesis here")
      | (tokens, (Token.Int num, _)) => Except.ok (tokens, Expr.Literal (Value.Int num))
      | (tokens, (Token.Float num, _)) => Except.ok (tokens, Expr.Literal (Value.Float num))
      | (tokens, (Token.Minus, _)) =>
          match parse_primary fuel tokens with
          | Except.error e => Except.error e
          | Except.ok (tokens, expr) => Except.ok (tokens, Expr.Negative expr)
      | (tokens, (Token.LetKeyword, _)) =>
          match firstTok tokens with
          | (Token.Name name, _) =>
              let tokens := skipOne tokens
              if (firstTok tokens).1 = Token.Equals then
                match parse_conditional fuel (skipOne tokens) with
                | Except.error e => Except.error e
                | Except.ok (tokens, expr) =>
                    Except.ok (tokens, Expr.VarDeclaration name expr)
              else Except.error (firstTok tokens, "Hey, I expected \"=\" right here")
          | token => Except.error (token, "Hey, I expected a name of a variable right here")
      | (tokens, (Token.PrintKeyword, _)) =>
          match parse_conditional fuel tokens with
          | Except.error e => Except.error e
          | Except.ok (tokens, expr) => Except.ok (tokens, Expr.Print expr)
      | (tokens, (Token.Name name, _)) => Except.ok (tokens, Expr.Var name)
      | (tokens, (Token.True, _)) => Except.ok (tokens, Expr.Literal (Value.Bool true))
      | (tokens, (Token.False, _)) => Except.ok (tokens, Expr.Literal (Value.Bool false))
      | (tokens, (Token.If, _)) =>
          match parse_conditional fuel tokens with
          | Except.error e => Except.error e
          | Except.ok (tokens, cond) =>
              if (firstTok tokens).1 = Token.Then then
                match parse_conditional fuel (skipOne tokens) with
                | Except.error e => Except.error e
                | Except.ok (tokens, val_if_true) =>
                    if (firstTok tokens).1 = Token.Else then
                      match parse_conditional fuel (skipOne tokens) with
                      | Except.error e => Except.error e
                      | Except.ok (tokens, val_if_false) =>
                          Except.ok (tokens, Expr.Conditional cond val_if_true val_if_false)
                    else Except.error (firstTok tokens, "Hey, I expected an \"else\" keyword right here")
              else Except.error (firstTok tokens, "Hey, I expected a \"then\" keyword right here (conditional expressions look like this: if *condition* then *value* else *value*)")
      | (_, token) =>
          match token with
          | (Token.EOF, _) => Except.error (token, "Hey, I didn't expect the input to end right here")
          | _ => Except.error (token, "Hey, I didn't expect this thing right here")

end

/-- Source: `parser.rs`, the `while first(tokens).0 != Token::EOF` loop
of `parse`, collecting one expression per top-level parse. -/
def parseLoop : Nat → List WrappedToken → Except (WrappedToken × String) (List Expr)
  | 0, _ => Except.error ((Token.EOF, 0), fuelMsg)
  | fuel + 1, tokens =>
      if (firstTok tokens).1 = Token.EOF then Except.ok []
      else
        match parse_conditional (4 * tokens.length + 8) tokens with
        | Except.error e => Except.error e
        | Except.ok (unparsed, expr) =>
            match parseLoop fuel unparsed with
            | Except.error e => Except.error e
            | Except.ok exprs => Except.ok (expr :: exprs)

/-- Source: `parser.rs`, `parse`: tokenize, then repeatedly parse
top-level expressions until `EOF`.  Lexer errors and parser errors are
kept apart (Rust renders both to strings). -/
def parse (input : List Char) :
    Except (Sum LexErr (WrappedToken × String)) (List Expr) :=
  match tokenize input with
  | Except.error e => Except.error (Sum.inl e)
  | Except.ok tokens =>
      match parseLoop (tokens.length + 1) tokens with
      | Except.error e => Except.error (Sum.inr e)
      | Except.ok exprs => Except.ok exprs

example : parse "1+2*3".data
    = Except.ok [Expr.Addition (Expr.Literal (Value.Int 1))
        (Expr.Multiplication (Expr.Literal (Value.Int 2)) (Expr.Literal (Value.Int 3)))] := by
  decide
example : parse "let x = 5 x".data
    = Except.ok [Expr.VarDeclaration "x" (Expr.Literal (Value.Int 5)), Expr.Var "x"] := by
  decide

example : (Expr.Addition (Expr.Literal (Value.Int 1)) (Expr.Literal (Value.Int 2))).eval Env.new
    = some (Value.Int 3, Env.new) := by decide

/-- An expression tree containing no `VarDeclaration` node. -/
def noVarDecl : Expr → Bool
  | Expr.Literal _ => true
  | Expr.VarDeclaration _ _ => false
  | Expr.Var _ => true
  | Expr.Print e => noVarDecl e
  | Expr.Multiplication l r => noVarDecl l && noVarDecl r
  | Expr.Division l r => noVarDecl l && noVarDecl r
  | Expr.Addition l r => noVarDecl l && noVarDecl r
  | Expr.Subtraction l r => noVarDecl l && noVarDecl r
  | Expr.Negative e => noVarDecl e
  | Expr.Equality l r => noVarDecl l && noVarDecl r
  | Expr.Conditional c t f => noVarDecl c && noVarDecl t && noVarDecl f

/-- C10: evaluating an expression with no `VarDeclaration` node leaves
the environment unchanged; `VarDeclaration` is the only operation that
mutates the environment. -/
theorem eval_noVarDecl_frame (e : Expr) :
    ∀ env v env', noVarDecl e = true → e.eval env = some (v, env') → env' = env := by
  induction e with
  | Literal val =>
      intro env v env' _ h
      simp [Expr.eval] at h
      exact h.2.symm
  | VarDeclaration name e ih =>
      intro env v env' hnd _
      simp [noVarDecl] at hnd
  | Var name =>
      intro env v env' _ h
      cases hg : envGet name env with
      | none => rw [Expr.eval, hg] at h; simp at h
      | some w =>
          rw [Expr.eval, hg] at h
          simp at h
          exact h.2.symm
  | Print e ih =>
      intro env v env' hnd h
      exact ih env v env' (by simpa [noVarDecl] using hnd) h
  | Multiplication l r ihl ihr =>
      intro env v env' hnd h
      rw [noVarDecl, Bool.and_eq_true] at hnd
      rw [Expr.eval] at h
      cases hl : l.eval env with
      | none => rw [hl] at h; simp at h
      | some p =>
          obtain ⟨lv, env1⟩ := p
          rw [hl] at h
          simp only [Option.bind_eq_bind, Option.some_bind] at h
          cases hr : r.eval env1 with
          | none => rw [hr] at h; simp at h
          | some q =>
              obtain ⟨rv, env2⟩ := q
              rw [hr] at h
              simp only [Option.bind_eq_bind, Option.some_bind] at h
              have e1 : env1 = env := ihl env lv env1 hnd.1 hl
              have e2 : env2 = env1 := ihr env1 rv env2 hnd.2 hr
              subst e1
              subst e2
              split at h <;>
                first
                  | (injection h with h1; injection h1 with h2 h3; subst h3; rfl)
                  | (split at h <;>
                      first
                        | exact Option.noConfusion h
                        | (injection h with h1; injection h1 with h2 h3; subst h3; rfl))
  | Division l r ihl ihr =>
      intro env v env' hnd h
      rw [noVarDecl, Bool.and_eq_true] at hnd
      rw [Expr.eval] at h
      cases hl : l.eval env with
      | none => rw [hl] at h; simp at h
      | some p =>
          obtain ⟨lv, env1⟩ := p
          rw [hl] at h
          simp only [Option.bind_eq_bind, Option.some_bind] at h
          cases hr : r.eval env1 with
          | none => rw [hr] at h; simp at h
          | some q =>
              obtain ⟨rv, env2⟩ := q
              rw [hr] at h
              simp only [Option.bind_eq_bind, Option.some_bind] at h
              have e1 : env1 = env := ihl env lv env1 hnd.1 hl
              have e2 : env2 = env1 := ihr env1 rv env2 hnd.2 hr
              subst e1
              subst e2
              split at h <;>
                first
                  | (injection h with h1; injection h1 with h2 h3; subst h3; rfl)
                  | (split at h <;>
                      first
                        | exact Option.noConfusion h
                        | (injection h with h1; injection h1 with h2 h3; subst h3; rfl))
  | Addition l r ihl ihr =>
      intro env v env' hnd h
      rw [noVarDecl, Bool.and_eq_true] at hnd
      rw [Expr.eval] at h
      cases hl : l.eval env with
      | none => rw [hl] at h; simp at h
      | some p =>
          obtain ⟨lv, env1⟩ := p
          rw [hl] at h
          simp only [Option.bind_eq_bind, Option.some_bind] at h
          cases hr : r.eval env1 with
          | none => rw [hr] at h; simp at h
          | some q =>
              obtain ⟨rv, env2⟩ := q
              rw [hr] at h
              simp only [Option.bind_eq_bind, Option.some_bind] at h
              have e1 : env1 = env := ihl env lv env1 hnd.1 hl
              have e2 : env2 = env1 := ihr env1 rv env2 hnd.2 hr
              subst e1
              subst e2
              split at h <;>
                first
                  | (injection h with h1; injection h1 with h2 h3; subst h3; rfl)
                  | (split at h <;>
                      first
                        | exact Option.noConfusion h
                        | (injection h with h1; injection h1 with h2 h3; subst h3; rfl))
  | Subtraction l r ihl ihr =>
      intro env v env' hnd h
      rw [noVarDecl, Bool.and_eq_true] at hnd
      rw [Expr.eval] at h
      cases hl : l.eval env with
      | none => rw [hl] at h; simp at h
      | some p =>
          obtain ⟨lv, env1⟩ := p
          rw [hl] at h
          simp only [Option.bind_eq_bind, Option.some_bind] at h
          cases hr : r.eval env1 with
          | none => rw [hr] at h; simp at h
          | some q =>
              obtain ⟨rv, env2⟩ := q
              rw [hr] at h
              simp only [Option.bind_eq_bind, Option.some_bind] at h
              have e1 : env1 = env := ihl env lv env1 hnd.1 hl
              have e2 : env2 = env1 := ihr env1 rv env2 hnd.2 hr
              subst e1
              subst e2
              split at h <;>
                first
                  | (injection h with h1; injection h1 with h2 h3; subst h3; rfl)
                  | (split at h <;>
                      first
                        | exact Option.noConfusion h
                        | (injection h with h1; injection h1 with h2 h3; subst h3; rfl))
  | Negative e ih =>
      intro env v env' hnd h
      rw [Expr.eval] at h
      cases he : e.eval env with
      | none => rw [he] at h; simp at h
      | some p =>
          obtain ⟨w, env1⟩ := p
          rw [he] at h
          simp only [Option.bind_eq_bind, Option.some_bind] at h
          have e1 : env1 = env := ih env w env1 (by simpa [noVarDecl] using hnd) he
          subst e1
          split at h <;>
          first
            | (injection h with h1; injection h1 with h2 h3; subst h3; rfl)
            | (split at h <;>
                first
                  | exact Option.noConfusion h
                  | (injection h with h1; injection h1 with h2 h3; subst h3; rfl))
  | Equality l r ihl ihr =>
      intro env v env' hnd h
      rw [noVarDecl, Bool.and_eq_true] at hnd
      rw [Expr.eval] at h
      cases hl : l.eval env with
      | none => rw [hl] at h; simp at h
      | some p =>
          obtain ⟨lv, env1⟩ := p
          rw [hl] at h
          simp only [Option.bind_eq_bind, Option.some_bind] at h
          cases hr : r.eval env1 with
          | none => rw [hr] at h; simp at h
          | some q =>
              obtain ⟨rv, env2⟩ := q
              rw [hr] at h
              simp only [Option.bind_eq_bind, Option.some_bind] at h
              have e1 : env1 = env := ihl env lv env1 hnd.1 hl
              have e2 : env2 = env1 := ihr env1 rv env2 hnd.2 hr
              subst e1
              subst e2
              injection h with h1
              injection h1 with h2 h3
              subst h3
              rfl
  | Conditional c t f ihc iht ihf =>
      intro env v env' hnd h
      rw [noVarDecl, Bool.and_eq_true, Bool.and_eq_true] at hnd
      rw [Expr.eval] at h
      cases hc : c.eval env with
      | none => rw [hc] at h; simp at h
      | some p =>
          obtain ⟨cv, env1⟩ := p
          rw [hc] at h
          simp only [Option.bind_eq_bind, Option.some_bind] at h
          have e1 : env1 = env := ihc env cv env1 hnd.1.1 hc
          subst e1
          cases cv with
          | Bool b =>
              cases b with
              | true => exact iht env1 v env' hnd.1.2 h
              | false => exact ihf env1 v env' hnd.2 h
          | Int n => exact ihf env1 v env' hnd.2 h
          | Float g => exact ihf env1 v env' hnd.2 h

theorem eval_noVarDecl_frame_witness :
    noVarDecl (Expr.Addition (Expr.Literal (Value.Int 1)) (Expr.Var "x")) = true ∧
    (envInsert "x" (Value.Int 2) Env.new) = (envInsert "x" (Value.Int 2) Env.new) :=
  ⟨by decide,
    eval_noVarDecl_frame (Expr.Addition (Expr.Literal (Value.Int 1)) (Expr.Var "x"))
      (envInsert "x" (Value.Int 2) Env.new) (Value.Int 3)
      (envInsert "x" (Value.Int 2) Env.new) (by decide) (by decide)⟩

/-- Division of any `f64` by (positive) floating zero is an infinity or
NaN, never a fault. -/
theorem MFloat.div_zero_inf_or_nan (x : MFloat) :
    MFloat.div x (MFloat.num 0) = MFloat.nan ∨
    ∃ s, MFloat.div x (MFloat.num 0) = MFloat.inf s := by
  cases x with
  | num q =>
      by_cases hq : q = 0
      · left
        simp [MFloat.div, hq]
      · by_cases hq2 : 0 < q
        · right
          exact ⟨true, by simp [MFloat.div, hq, hq2]⟩
        · right
          exact ⟨false, by simp [MFloat.div, hq, hq2]⟩
  | inf p => right; exact ⟨p, by simp [MFloat.div]⟩
  | nan => left; rfl

/-- C3 (amended): with both operands evaluating to `Int`, a non-zero
divisor other than the overflow pair `(i64::MIN, -1)` yields the
truncating 64-bit quotient, a zero divisor panics (`none`), and the
overflow pair also panics (Rust's checked division); with at least one
`Float`/`Bool` operand both are coerced to `f64` and float division is
performed, which on a zero divisor yields an infinity or NaN and never
panics. -/
theorem eval_division_semantics (l r : Expr) (env : Env) (lv : Value) (env1 : Env)
    (rv : Value) (env2 : Env)
    (hl : l.eval env = some (lv, env1)) (hr : r.eval env1 = some (rv, env2)) :
    (∀ a b : ℤ, lv = Value.Int a → rv = Value.Int b → b ≠ 0 →
      ¬(a = i64Min ∧ b = -1) →
      (Expr.Division l r).eval env = some (Value.Int (Int.tdiv a b), env2)) ∧
    (∀ a : ℤ, lv = Value.Int a → rv = Value.Int 0 →
      (Expr.Division l r).eval env = none) ∧
    (∀ b : ℤ, lv = Value.Int i64Min → rv = Value.Int b → b = -1 →
      (Expr.Division l r).eval env = none) ∧
    ((∀ a : ℤ, lv ≠ Value.Int a) ∨ (∀ b : ℤ, rv ≠ Value.Int b) →
      (Expr.Division l r).eval env
        = some (Value.Float (MFloat.div lv.f64 rv.f64), env2) ∧
      (rv.f64 = MFloat.num 0 →
        MFloat.div lv.f64 rv.f64 = MFloat.nan ∨
        ∃ s, MFloat.div lv.f64 rv.f64 = MFloat.inf s)) := by
  refine ⟨?_, ?_, ?_, ?_⟩
  · intro a b h1 h2 hb hov
    subst h1
    subst h2
    have hcond : ¬(b = 0 ∨ (a = i64Min ∧ b = -1)) := by
      intro hdisj
      rcases hdisj with h | h
      · exact hb h
      · exact hov h
    simp [Expr.eval, hl, hr, hcond]
  · intro a h1 h2
    subst h1
    subst h2
    simp [Expr.eval, hl, hr]
  · intro b h1 h2 hb
    subst h1
    subst h2
    subst hb
    simp [Expr.eval, hl, hr]
  · intro hnot
    have hni : ¬((∃ a, lv = Value.Int a) ∧ (∃ b, rv = Value.Int b)) := by
      rintro ⟨⟨a, ha⟩, ⟨b, hb⟩⟩
      rcases hnot with h | h
      · exact h a ha
      · exact h b hb
    refine ⟨?_, ?_⟩
    · cases lv with
      | Int a =>
          cases rv with
          | Int b => exact absurd ⟨⟨a, rfl⟩, ⟨b, rfl⟩⟩ hni
          | Float g => simp [Expr.eval, hl, hr]
          | Bool b => simp [Expr.eval, hl, hr]
      | Float g => cases rv <;> simp [Expr.eval, hl, hr]
      | Bool b => cases rv <;> simp [Expr.eval, hl, hr]
    · intro h0
      rw [h0]
      exact MFloat.div_zero_inf_or_nan lv.f64

theorem eval_division_semantics_witness :
    (Expr.Division (Expr.Literal (Value.Int 7)) (Expr.Literal (Value.Int 2))).eval Env.new
      = some (Value.Int (Int.tdiv 7 2), Env.new) :=
  (eval_division_semantics (Expr.Literal (Value.Int 7)) (Expr.Literal (Value.Int 2))
    Env.new (Value.Int 7) Env.new (Value.Int 2) Env.new rfl rfl).1
    7 2 rfl rfl (by decide) (by decide)

/-- C3 counterexample: the divisor `-1` is non-zero, yet evaluating the
division of `Int(-2^63)` by `Int(-1)` panics (Rust's division overflow
check), instead of yielding a truncating quotient as the claim states
for every non-zero divisor. -/
theorem eval_division_overflow_counterexample :
    (-1 : ℤ) ≠ 0 ∧
    (Expr.Division (Expr.Literal (Value.Int (-(2 ^ 63))))
      (Expr.Literal (Value.Int (-1)))).eval Env.new = none := by
  constructor
  · decide
  · decide

/-- C4: evaluating an `Equality` node evaluates both operands, coerces
both to `f64` whatever their kind, and returns `Bool(true)` exactly when
the absolute difference is strictly below the epsilon `1e-6` (stated
exactly on the rational model for finite coerced values). -/
theorem eval_equality_epsilon (l r : Expr) (env : Env) (lv : Value) (env1 : Env)
    (rv : Value) (env2 : Env)
    (hl : l.eval env = some (lv, env1)) (hr : r.eval env1 = some (rv, env2)) :
    (Expr.Equality l r).eval env
      = some (Value.Bool (MFloat.lt (MFloat.abs (MFloat.sub lv.f64 rv.f64)) eps1e6), env2) ∧
    (∀ qa qb : ℚ, lv.f64 = MFloat.num qa → rv.f64 = MFloat.num qb →
      (MFloat.lt (MFloat.abs (MFloat.sub lv.f64 rv.f64)) eps1e6 = true ↔
        |qa - qb| < 1 / 1000000)) := by
  constructor
  · simp [Expr.eval, hl, hr]
  · intro qa qb ha hb
    rw [ha, hb]
    simp [MFloat.sub, MFloat.abs, MFloat.lt, eps1e6]

theorem eval_equality_epsilon_witness :
    (Expr.Equality (Expr.Literal (Value.Int 1)) (Expr.Literal (Value.Bool true))).eval Env.new
      = some (Value.Bool (MFloat.lt (MFloat.abs (MFloat.sub
          (Value.Int 1).f64 (Value.Bool true).f64)) eps1e6), Env.new) :=
  (eval_equality_epsilon (Expr.Literal (Value.Int 1)) (Expr.Literal (Value.Bool true))
    Env.new (Value.Int 1) Env.new (Value.Bool true) Env.new rfl rfl).1

/-- C6: for every environment and every name not bound in it, evaluating
a `Var` node for that name fails fatally (the Rust `unwrap` panic,
modelled as `none`); the evaluator offers no recoverable
undefined-variable error, so no other outcome exists. -/
theorem eval_var_unbound_panics (name : String) (env : Env)
    (h : envGet name env = none) :
    (Expr.Var name).eval env = none := by
  simp [Expr.eval, h]

theorem eval_var_unbound_panics_witness :
    envGet "x" Env.new = none ∧ (Expr.Var "x").eval Env.new = none :=
  ⟨rfl, eval_var_unbound_panics "x" Env.new rfl⟩

/-- C7: evaluating a `VarDeclaration` first evaluates the initializer,
stores the resulting value under the name (overwriting any prior
binding) and returns that same value; a later lookup of the name yields
the last value bound (last-write-wins). -/
theorem eval_var_declaration_stores_and_returns (name : String) (e : Expr)
    (env : Env) (v : Value) (env1 : Env) (h : e.eval env = some (v, env1)) :
    (Expr.VarDeclaration name e).eval env = some (v, envInsert name v env1) ∧
    envGet name (envInsert name v env1) = some v ∧
    (∀ (w : Value) (env2 : Env),
      envGet name (envInsert name w (envInsert name v env2)) = some w) := by
  refine ⟨by simp [Expr.eval, h], ?_, ?_⟩
  · simp [envGet, envInsert, List.lookup]
  · intro w env2
    simp [envGet, envInsert, List.lookup]

theorem eval_var_declaration_stores_and_returns_witness :
    (Expr.Literal (Value.Int 5)).eval Env.new = some (Value.Int 5, Env.new) ∧
    ((Expr.VarDeclaration "x" (Expr.Literal (Value.Int 5))).eval Env.new
        = some (Value.Int 5, envInsert "x" (Value.Int 5) Env.new) ∧
      envGet "x" (envInsert "x" (Value.Int 5) Env.new) = some (Value.Int 5) ∧
      (∀ (w : Value) (env2 : Env),
        envGet "x" (envInsert "x" w (envInsert "x" (Value.Int 5) env2)) = some w)) :=
  ⟨rfl, eval_var_declaration_stores_and_returns "x" (Expr.Literal (Value.Int 5))
    Env.new (Value.Int 5) Env.new rfl⟩

/-- C8: evaluating a `Conditional` evaluates the condition; exactly when
it is `Bool(true)` the true branch is evaluated and returned, and for
every other condition value (including `Bool(false)` and any `Int` or
`Float`, which are not rejected) the false branch is evaluated and
returned. -/
theorem eval_conditional_branches (cond t f : Expr) (env : Env)
    (cv : Value) (env1 : Env) (h : cond.eval env = some (cv, env1)) :
    (cv = Value.Bool true → (Expr.Conditional cond t f).eval env = t.eval env1) ∧
    (cv ≠ Value.Bool true → (Expr.Conditional cond t f).eval env = f.eval env1) := by
  constructor
  · intro hv
    subst hv
    simp [Expr.eval, h]
  · intro hv
    cases cv with
    | Int n => simp [Expr.eval, h]
    | Float g => simp [Expr.eval, h]
    | Bool b =>
        cases b with
        | false => simp [Expr.eval, h]
        | true => exact absurd rfl hv

theorem eval_conditional_branches_witness :
    (Expr.Literal (Value.Int 0)).eval Env.new = some (Value.Int 0, Env.new) ∧
    ((Value.Int 0 = Value.Bool true →
        (Expr.Conditional (Expr.Literal (Value.Int 0)) (Expr.Literal (Value.Int 1))
          (Expr.Literal (Value.Int 2))).eval Env.new
          = (Expr.Literal (Value.Int 1)).eval Env.new) ∧
      (Value.Int 0 ≠ Value.Bool true →
        (Expr.Conditional (Expr.Literal (Value.Int 0)) (Expr.Literal (Value.Int 1))
          (Expr.Literal (Value.Int 2))).eval Env.new
          = (Expr.Literal (Value.Int 2)).eval Env.new)) :=
  ⟨rfl, eval_conditional_branches (Expr.Literal (Value.Int 0))
    (Expr.Literal (Value.Int 1)) (Expr.Literal (Value.Int 2)) Env.new
    (Value.Int 0) Env.new rfl⟩
example : (Expr.Division (Expr.Literal (Value.Int 7)) (Expr.Literal (Value.Int 0))).eval Env.new
    = none := by decide
example : (Expr.Division (Expr.Literal (Value.Int (-7))) (Expr.Literal (Value.Int 2))).eval Env.new
    = some (Value.Int (-3), Env.new) := by decide
example : (Expr.Division (Expr.Literal (Value.Float (MFloat.num 1))) (Expr.Literal (Value.Int 0))).eval Env.new
    = some (Value.Float (MFloat.inf true), Env.new) := by decide

/-- Dropping a prefix by a predicate never lengthens a list. -/
theorem dropWhile_length_le (p : Char → Bool) :
    ∀ l : List Char, (l.dropWhile p).length ≤ l.length := by
  intro l
  induction l with
  | nil => exact Nat.le_refl _
  | cons c r ih =>
      rw [List.dropWhile_cons]
      split
      · exact Nat.le_trans ih (by simp)
      · exact Nat.le_refl _

/-- Function `eat_word` never produces the `EOF` token. -/
theorem eat_word_not_eof (u rest : List Char) (t : Token)
    (h : eat_word u = Except.ok (rest, t)) : t ≠ Token.EOF := by
  simp only [eat_word] at h
  injection h with h1
  injection h1 with h2 h3
  subst h3
  split
  · simp
  · split <;> simp

/-- Function `eat_number` never produces the `EOF` token. -/
theorem eat_number_not_eof (u rest : List Char) (t : Token)
    (h : eat_number u = Except.ok (rest, t)) : t ≠ Token.EOF := by
  simp only [eat_number] at h
  repeat' split at h
  all_goals
    first
      | exact Except.noConfusion h
      | (injection h with h1; injection h1 with h2 h3; subst h3; simp)

/-- Function `eat_token` never produces the `EOF` token: the end-of-input marker
is appended only once, by `tokenize` itself. -/
theorem eat_token_not_eof (u rest : List Char) (t : Token)
    (h : eat_token u = Except.ok (rest, t)) : t ≠ Token.EOF := by
  cases u with
  | nil => exact Except.noConfusion h
  | cons c r =>
      rw [eat_token] at h
      repeat' split at h
      all_goals
        first
          | exact Except.noConfusion h
          | exact eat_word_not_eof _ _ _ h
          | exact eat_number_not_eof _ _ _ h
          | (injection h with h1; injection h1 with h2 h3; subst h3;
             (repeat' split) <;> simp)

/-- No token produced by the lexing loop is the `EOF` marker. -/
theorem tokenizeLoop_not_eof :
    ∀ (fuel : Nat) (orig u : List Char) (ts : List (Token × Nat)),
      tokenizeLoop fuel orig u = Except.ok ts → ∀ p ∈ ts, p.1 ≠ Token.EOF := by
  intro fuel
  induction fuel with
  | zero =>
      intro orig u ts h
      exact Except.noConfusion h
  | succ n ih =>
      intro orig u ts h
      rw [tokenizeLoop] at h
      split at h
      · injection h with h1
        intro p hp
        rw [← h1] at hp
        simp at hp
      · cases het : eat_token u with
        | error e => rw [het] at h; exact Except.noConfusion h
        | ok pr =>
            obtain ⟨rest, token⟩ := pr
            rw [het] at h
            dsimp only at h
            cases hrec : tokenizeLoop n orig (skip_whitespace rest) with
            | error e => rw [hrec] at h; exact Except.noConfusion h
            | ok ts2 =>
                rw [hrec] at h
                injection h with h1
                subst h1
                intro p hp
                rcases List.mem_cons.mp hp with h2 | h2
                · rw [h2]
                  exact eat_token_not_eof u rest token het
                · exact ih orig (skip_whitespace rest) ts2 hrec p h2

/-- C9: for every non-empty input on which `tokenize` succeeds, the
token list ends with exactly one `EOF` marker (none appears earlier),
and its offset is the byte length of the input with trailing whitespace
trimmed (Rust `input.trim_end().len()`). -/
theorem tokenize_eof_invariant (input : List Char) (ts : List (Token × Nat))
    (hne : input ≠ []) (h : tokenize input = Except.ok ts) :
    ∃ ts', ts = ts' ++ [(Token.EOF, utf8Length (trimEnd input))] ∧
      ∀ p ∈ ts', p.1 ≠ Token.EOF := by
  rw [tokenize] at h
  split at h
  · exact Except.noConfusion h
  · cases hloop : tokenizeLoop ((skip_whitespace input).length + 1) input
        (skip_whitespace input) with
    | error e => rw [hloop] at h; exact Except.noConfusion h
    | ok ts0 =>
        rw [hloop] at h
        injection h with h1
        exact ⟨ts0, h1.symm, tokenizeLoop_not_eof _ _ _ _ hloop⟩

theorem tokenize_eof_invariant_witness :
    ('1' :: '+' :: '2' :: []) ≠ ([] : List Char) ∧
    ∃ ts', [(Token.Int 1, 0), (Token.Plus, 1), (Token.Int 2, 2), (Token.EOF, 3)]
        = ts' ++ [(Token.EOF, utf8Length (trimEnd ('1' :: '+' :: '2' :: [])))] ∧
      ∀ p ∈ ts', p.1 ≠ Token.EOF :=
  ⟨by decide, tokenize_eof_invariant ('1' :: '+' :: '2' :: [])
    [(Token.Int 1, 0), (Token.Plus, 1), (Token.Int 2, 2), (Token.EOF, 3)]
    (by decide) (by decide)⟩

/-- Function `eat_word`, called on a word character, consumes at least that
character. -/
theorem eat_word_shrinks (c : Char) (r rest : List Char) (t : Token)
    (hc : isAsciiAlphabetic c = true)
    (h : eat_word (c :: r) = Except.ok (rest, t)) :
    rest.length < (c :: r).length := by
  simp only [eat_word] at h
  injection h with h1
  injection h1 with h2 h3
  rw [← h2, List.dropWhile_cons_of_pos hc]
  exact Nat.lt_succ_of_le (dropWhile_length_le _ _)

/-- Function `eat_number`, called on a digit character, consumes at least that
character. -/
theorem eat_number_shrinks (c : Char) (r rest : List Char) (t : Token)
    (hc : isAsciiDigit c = true)
    (h : eat_number (c :: r) = Except.ok (rest, t)) :
    rest.length < (c :: r).length := by
  simp only [eat_number] at h
  cases hd : List.dropWhile isAsciiDigit (c :: r) with
  | nil =>
      rw [hd] at h
      dsimp only at h
      split at h
      · exact Except.noConfusion h
      · injection h with h1
        injection h1 with h2 h3
        rw [← h2]
        simp
  | cons ch rest2 =>
      rw [hd] at h
      dsimp only at h
      have l3 : (List.dropWhile isAsciiDigit (c :: r)).length ≤ r.length := by
        rw [List.dropWhile_cons_of_pos hc]
        exact dropWhile_length_le _ _
      rw [hd] at l3
      split at h
      · injection h with h1
        injection h1 with h2 h3
        have l1 : rest.length ≤ rest2.length := by
          rw [← h2]
          exact dropWhile_length_le _ _
        simp only [List.length_cons] at l3 ⊢
        omega
      · split at h
        · exact Except.noConfusion h
        · injection h with h1
          injection h1 with h2 h3
          rw [← h2]
          simp only [List.length_cons] at l3 ⊢
          omega

/-- Function `eat_token` on a non-empty input always consumes at least one
character; with `dropWhile_length_le` this shows the fuel
`unprocessed.length + 1` given to `tokenizeLoop` by `tokenize` is always
sufficient, so the fuelled embedding agrees with the Rust `while` loop. -/
theorem eat_token_shrinks (u rest : List Char) (t : Token)
    (h : eat_token u = Except.ok (rest, t)) : rest.length < u.length := by
  cases u with
  | nil => exact Except.noConfusion h
  | cons c r =>
      rw [eat_token] at h
      have step : ∀ (cond : Prop) (inst : Decidable cond) (tk : Token)
          (alt : Except LexErr (List Char × Token)),
          (if cond then Except.ok (r, tk) else alt) = Except.ok (rest, t) →
          (alt = Except.ok (rest, t) → rest.length < (c :: r).length) →
          rest.length < (c :: r).length := by
        intro cond inst tk alt hh halt
        split at hh
        · injection hh with hp
          injection hp with h2 h3
          rw [← h2]
          simp
        · exact halt hh
      refine step _ _ _ _ h fun h => ?_
      refine step _ _ _ _ h fun h => ?_
      refine step _ _ _ _ h fun h => ?_
      refine step _ _ _ _ h fun h => ?_
      refine step _ _ _ _ h fun h => ?_
      refine step _ _ _ _ h fun h => ?_
      refine step _ _ _ _ h fun h => ?_
      by_cases ha : isAsciiAlphabetic c = true
      · rw [if_pos ha] at h
        exact eat_word_shrinks c r rest t ha h
      · rw [if_neg ha] at h
        by_cases hd : isAsciiDigit c = true
        · rw [if_pos hd] at h
          exact eat_number_shrinks c r rest t hd h
        · rw [if_neg hd] at h
          exact Except.noConfusion h

/-- The errors of `eat_number` are real lexer errors, never the
embedding's fuel marker. -/
theorem eat_number_error_not_fuel (u : List Char) (e : LexErr)
    (h : eat_number u = Except.error e) : e ≠ LexErr.fuel := by
  simp only [eat_number] at h
  repeat' split at h
  all_goals
    first
      | exact Except.noConfusion h
      | (injection h with h1; subst h1; simp)

/-- The errors of `eat_token` are real lexer errors, never the
embedding's fuel marker. -/
theorem eat_token_error_not_fuel (u : List Char) (e : LexErr)
    (h : eat_token u = Except.error e) : e ≠ LexErr.fuel := by
  cases u with
  | nil =>
      injection h with h1
      subst h1
      simp
  | cons c r =>
      rw [eat_token] at h
      repeat' split at h
      all_goals
        first
          | exact Except.noConfusion h
          | (injection h with h1; subst h1; simp)
          | exact eat_number_error_not_fuel _ _ h

/-- With fuel exceeding the length of the unprocessed input the lexing
loop never exhausts its fuel: the fuelled recursion is a faithful model
of the Rust `while` loop in `tokenize`. -/
theorem tokenizeLoop_fuel_sufficient :
    ∀ (fuel : Nat) (orig u : List Char), u.length < fuel →
      tokenizeLoop fuel orig u ≠ Except.error LexErr.fuel := by
  intro fuel
  induction fuel with
  | zero =>
      intro orig u hlen
      exact absurd hlen (Nat.not_lt_zero _)
  | succ n ih =>
      intro orig u hlen
      rw [tokenizeLoop]
      split
      · exact fun hh => Except.noConfusion hh
      · cases het : eat_token u with
        | error e =>
            intro hh
            injection hh with h1
            exact eat_token_error_not_fuel u e het h1
        | ok pr =>
            obtain ⟨rest, token⟩ := pr
            dsimp only
            cases hrec : tokenizeLoop n orig (skip_whitespace rest) with
            | error e2 =>
                dsimp only
                intro hh
                injection hh with h1
                subst h1
                have hlt : (skip_whitespace rest).length < n := by
                  have h5 := eat_token_shrinks u rest token het
                  have h6 : (skip_whitespace rest).length ≤ rest.length :=
                    dropWhile_length_le _ _
                  omega
                exact ih orig (skip_whitespace rest) hlt hrec
            | ok ts =>
                dsimp only
                exact fun hh => Except.noConfusion hh

/-- Function `tokenize` never returns the embedding's fuel marker: its result is
always the one the Rust loop computes. -/
theorem tokenize_no_fuel_error (input : List Char) :
    tokenize input ≠ Except.error LexErr.fuel := by
  rw [tokenize]
  split
  · intro hh
    injection hh with h1
    exact LexErr.noConfusion h1
  · cases hloop : tokenizeLoop ((skip_whitespace input).length + 1) input
        (skip_whitespace input) with
    | error e =>
        intro hh
        injection hh with h1
        subst h1
        exact tokenizeLoop_fuel_sufficient _ input (skip_whitespace input)
          (Nat.lt_succ_self _) hloop
    | ok ts =>
        dsimp only
        exact fun hh => Except.noConfusion hh

/-- The four binary operator tokens dispatched by the additive and
multiplicative parser levels, with the AST node each one builds
(`parser.rs`: `add`, `subtract`, `multiply`, `divide`). -/
inductive BinOp
  | plus
  | minus
  | star
  | slash
deriving DecidableEq

/-- The token of each operator. -/
def BinOp.token : BinOp → Token
  | BinOp.plus => Token.Plus
  | BinOp.minus => Token.Minus
  | BinOp.star => Token.Star
  | BinOp.slash => Token.Slash

/-- The AST node each operator builds. -/
def BinOp.node : BinOp → Expr → Expr → Expr
  | BinOp.plus => Expr.Addition
  | BinOp.minus => Expr.Subtraction
  | BinOp.star => Expr.Multiplication
  | BinOp.slash => Expr.Division

/-- Whether the operator belongs to the multiplicative level. -/
def BinOp.isMultiplicative : BinOp → Bool
  | BinOp.star => true
  | BinOp.slash => true
  | _ => false

/-- C5: the parser's precedence ladder with left associativity: for
every token sequence `a op1 b op2 c`, when `op1` and `op2` are at the
same level the AST groups as `(a op1 b) op2 c`, and a multiplicative
`op2` after an additive `op1` binds tighter, grouping as
`a op1 (b op2 c)` (a multiplicative `op1` before an additive `op2`
likewise groups `(a op1 b) op2 c`). -/
theorem parser_precedence_left_assoc (a b c : ℤ) (op1 op2 : BinOp) :
    parse_conditional 10
      [(Token.Int a, 0), (op1.token, 2), (Token.Int b, 4), (op2.token, 6),
        (Token.Int c, 8), (Token.EOF, 9)]
      = Except.ok ([(Token.EOF, 9)],
          if op1.isMultiplicative = false ∧ op2.isMultiplicative = true then
            op1.node (Expr.Literal (Value.Int a))
              (op2.node (Expr.Literal (Value.Int b)) (Expr.Literal (Value.Int c)))
          else
            op2.node
              (op1.node (Expr.Literal (Value.Int a)) (Expr.Literal (Value.Int b)))
              (Expr.Literal (Value.Int c))) := by
  cases op1 <;> cases op2 <;> rfl

/-- C1 (evidence): in the lexer of `lexer.rs`, only `"let"` and
`"print"` are classified as keywords; the words `"true"`, `"false"`,
`"if"`, `"then"` and `"else"` each lex as a `Name` token holding the raw
slice (indeed the `Token` enum written in `lexer.rs` has no `True`,
`False`, `If`, `Then`, `Else` variants, although `parser.rs` matches
them). -/
theorem lexer_keyword_words_lex_as_names :
    tokenize "true".data = Except.ok [(Token.Name "true", 0), (Token.EOF, 4)] ∧
    tokenize "false".data = Except.ok [(Token.Name "false", 0), (Token.EOF, 5)] ∧
    tokenize "if".data = Except.ok [(Token.Name "if", 0), (Token.EOF, 2)] ∧
    tokenize "then".data = Except.ok [(Token.Name "then", 0), (Token.EOF, 4)] ∧
    tokenize "else".data = Except.ok [(Token.Name "else", 0), (Token.EOF, 4)] ∧
    tokenize "let".data = Except.ok [(Token.LetKeyword, 0), (Token.EOF, 3)] ∧
    tokenize "print".data = Except.ok [(Token.PrintKeyword, 0), (Token.EOF, 5)] := by
  refine ⟨?_, ?_, ?_, ?_, ?_, ?_, ?_⟩ <;> decide

/-- C2 (evidence): the lexer of `lexer.rs` maps `'='` to `Equals` with
no lookahead, so the input `"=="` lexes as two consecutive `Equals`
tokens and no `DoubleEquals` token is ever produced (the `Token` enum
written in `lexer.rs` has no `DoubleEquals` variant, although
`parser.rs` matches one). -/
theorem double_equals_lexes_as_two_equals :
    tokenize "==".data
      = Except.ok [(Token.Equals, 0), (Token.Equals, 1), (Token.EOF, 2)] ∧
    tokenize "=".data = Except.ok [(Token.Equals, 0), (Token.EOF, 1)] := by
  constructor <;> decide
